import Mathlib

/-!
Verification of the inference postprocessing / preprocessing pipeline of this
FFmpeg-based video-analytics repository.

The definitions below are shallow embeddings of the C functions:
* `ExtractBoundingBoxes` (libavfilter/inference_backend/ff_pre_proc_vaapi.c)
* `find_max_element_index`, `attributes_to_text` (same file)
* `face_identify` (libavfilter/vf_inference_identify.c)
* `sw_crop_and_scale`, `fill_dnn_data_from_frame` (inference base implementation)
* `flush_frame` (libavfilter/vf_ie_detect.c)

Machine floats / doubles of the C code are modelled as exact rationals (or
reals where `acos` appears); C `(int)` casts are modelled by truncation
toward zero.
-/

namespace FFInference

/-- `AVERROR(EINVAL)` as FFmpeg encodes it: the negated errno value. -/
def AVERROR_EINVAL : Int := -22

/-- C `(int)` cast of a floating-point value: truncation toward zero. -/
def ctrunc (q : ℚ) : ℤ := if 0 ≤ q then ⌊q⌋ else ⌈q⌉

/-- One row of an SSD `DetectionOutput` tensor: 7 floats
`{image_id, label_id, confidence, x_min, y_min, x_max, y_max}`. -/
structure DetRow where
  image_id : ℚ
  label_id : ℚ
  confidence : ℚ
  x_min : ℚ
  y_min : ℚ
  x_max : ℚ
  y_max : ℚ
deriving DecidableEq

/-- `FFVideoRegionOfInterestMeta`, restricted to the width/height fields the
decoder reads (`roi->w`, `roi->h`). -/
structure ROI where
  w : ℤ
  h : ℤ
deriving DecidableEq

/-- `InferDetection` (inference.h): pixel bounding box with confidence, label
id and optional reference to a label table (`label_buf`).  The coordinate
fields receive integer pixel values in `ExtractBoundingBoxes`. -/
structure InferDetection where
  x_min : ℤ
  y_min : ℤ
  x_max : ℤ
  y_max : ℤ
  confidence : ℚ
  label_id : ℤ
  label_buf : Option (List String)
deriving DecidableEq

/-- The per-row bounding-box construction of `ExtractBoundingBoxes`
(ff_pre_proc_vaapi.c, lines 473-501): normalized coordinates are scaled by
the ROI's width/height, `+0.5`, truncated by the C `(int)` cast, and then
one-sidedly clamped (`x_min`,`y_min` from below by `0`; `x_max`,`y_max`
from above by the width/height). -/
def decodeBBox (labels : Option (List String)) (roi : ROI) (r : DetRow) : InferDetection :=
  let width := roi.w
  let height := roi.h
  let ix_min := ctrunc (r.x_min * width + 1/2)
  let iy_min := ctrunc (r.y_min * height + 1/2)
  let ix_max := ctrunc (r.x_max * width + 1/2)
  let iy_max := ctrunc (r.y_max * height + 1/2)
  let ix_min := if ix_min < 0 then 0 else ix_min
  let iy_min := if iy_min < 0 then 0 else iy_min
  let ix_max := if ix_max > width then width else ix_max
  let iy_max := if iy_max > height then height else iy_max
  { x_min := ix_min, y_min := iy_min, x_max := ix_max, y_max := iy_max,
    confidence := r.confidence, label_id := ctrunc r.label_id, label_buf := labels }

/-- Replace the `n`-th entry of a list by `f` of it (the
`boxes[image_id]` update of the C code). -/
def updateAt {α : Type} (n : ℕ) (f : α → α) : List α → List α
  | [] => []
  | x :: xs =>
    match n with
    | 0 => f x :: xs
    | Nat.succ m => x :: updateAt m f xs

/-- The row loop of `ExtractBoundingBoxes` (ff_pre_proc_vaapi.c, lines
452-503).  `boxes` is the per-ROI accumulator (one list per ROI of the
batch).  A row whose `(int)` image id is negative or `≥` the number of ROIs
terminates the loop (`break`); a row below the confidence threshold is
skipped (`continue`); any other row appends a decoded bounding box to its
image's list. -/
def extractLoop (threshold : ℚ) (labels : Option (List String)) (rois : List ROI) :
    List DetRow → List (List InferDetection) → List (List InferDetection)
  | [], boxes => boxes
  | r :: rest, boxes =>
    let image_id := ctrunc r.image_id
    if image_id < 0 ∨ (rois.length : ℤ) ≤ image_id then boxes
    else if r.confidence < threshold then extractLoop threshold labels rois rest boxes
    else
      let roi := rois.getD image_id.toNat ⟨0, 0⟩
      extractLoop threshold labels rois rest
        (updateAt image_id.toNat (fun bs => bs ++ [decodeBBox labels roi r]) boxes)

/-- `ExtractBoundingBoxes` for one output blob: decode all tensor rows
against the batch's ROIs, starting from an empty box list per ROI. -/
def ExtractBoundingBoxes (threshold : ℚ) (labels : Option (List String)) (rois : List ROI)
    (rows : List DetRow) : List (List InferDetection) :=
  extractLoop threshold labels rois rows (List.replicate rois.length [])

/-- `OutputPostproc` (model_proc rule): the fields read by
`attributes_to_text` — attribute name, converter method, threshold and the
loaded label table. -/
structure OutputPostproc where
  attribute_name : String
  method : String
  threshold : ℚ
  labels : List String
deriving DecidableEq

/-- `InferClassification` (inference.h): one classification record.
`label_buf` is the optional label-table reference. -/
structure InferClassification where
  detect_id : ℤ
  name : String
  label_id : ℤ
  confidence : ℚ
  value : ℚ
  label_buf : Option (List String)
deriving DecidableEq

/-- The zero-initialized record (`av_mallocz`) that `attributes_to_text`
receives and selectively fills. -/
def emptyClassification : InferClassification :=
  { detect_id := 0, name := "", label_id := 0, confidence := 0, value := 0, label_buf := none }

/-- Loop body of `find_max_element_index` (ff_pre_proc_vaapi.c, lines
571-581): scan the remaining elements (position counter `i`), updating the
running argmax `(index, value)` on a strictly greater element. -/
def findMaxAux : List ℚ → ℕ → ℕ → ℚ → ℕ × ℚ
  | [], _, index, value => (index, value)
  | x :: xs, i, index, value =>
    if value < x then findMaxAux xs (i + 1) i x
    else findMaxAux xs (i + 1) index value

/-- `find_max_element_index`: first-maximum index and value of a vector
(the C code starts from `index = 0`, `value = array[0]`). -/
def find_max_element_index (array : List ℚ) : ℕ × ℚ :=
  findMaxAux array.tail 1 0 (array.headD 0)

/-- The `method_max` branch of `attributes_to_text` (ff_pre_proc_vaapi.c,
lines 595-611): one record with the argmax index as label id, the maximum
as confidence, and a reference to the rule's label table. -/
def attributesToTextMax (metaIndex : ℤ) (post : OutputPostproc) (blob : List ℚ) :
    InferClassification :=
  let ind_val := find_max_element_index blob
  { emptyClassification with
      detect_id := metaIndex
      name := post.attribute_name
      label_id := (ind_val.1 : ℤ)
      confidence := ind_val.2
      label_buf := some post.labels }

/-- Loop body of the `method_compound` branch (ff_pre_proc_vaapi.c, lines
612-633): iterate the label table positions, appending the label string of
every element `≥ threshold` to the local `attributes` buffer and keeping
the running maximum element as `confidence`.  Modelled over the zipped
(element, label) pairs; the C code reads `blob_data[i]` for every label
index, which is well defined only when the vector covers the table. -/
def compoundLoop (th : ℚ) : List (ℚ × String) → String → ℚ → String × ℚ
  | [], attrs, conf => (attrs, conf)
  | p :: rest, attrs, conf =>
    let attrs' := if th ≤ p.1 then attrs ++ p.2 else attrs
    let conf' := if conf < p.1 then p.1 else conf
    compoundLoop th rest attrs' conf'

/-- The `method_compound` branch of `attributes_to_text`: threshold
defaults to `0.5` when the rule's threshold is `0`; the emitted record gets
only the attribute name and the maximum confidence — the composed
`attributes` string (second component) is only written to the debug log. -/
def attributesToTextCompound (post : OutputPostproc) (blob : List ℚ) :
    InferClassification × String :=
  let th := if post.threshold = 0 then 1/2 else post.threshold
  let attrs_conf := compoundLoop th (List.zip blob post.labels) "" 0
  ({ emptyClassification with
      name := post.attribute_name
      confidence := attrs_conf.2 }, attrs_conf.1)

end FFInference

namespace FFIdentify

/-- `av_dot` (inference base): plain dot product accumulated in a double. -/
noncomputable def av_dot (v1 v2 : List ℝ) : ℝ :=
  (List.zipWith (· * ·) v1 v2).sum

/-- `av_norm` (inference base): `sqrt` of the sum of squares. -/
noncomputable def av_norm (v : List ℝ) : ℝ :=
  Real.sqrt ((v.map fun x => x * x).sum)

/-- One gallery entry of `vf_inference_identify.c`: a reference feature
vector and its label id (the entry's `norm_std` is `av_norm` of the
feature, computed at init). -/
structure FaceFeature where
  label_id : ℤ
  feature : List ℝ

/-- The per-entry angle of `face_identify` (vf_inference_identify.c, lines
255-263): `acos((dot - 0.0001) / (norm_std[n] * norm_feature)) / PI * 180`. -/
noncomputable def angleOf (probe : List ℝ) (normFeature : ℝ) (f : FaceFeature) : ℝ :=
  Real.arccos ((av_dot probe f.feature - 1/10000) / (av_norm f.feature * normFeature))
    / Real.pi * 180

/-- The gallery loop of `face_identify`: starting from `label = 0`,
`min_angle = 180`, take an entry's label when its angle is `< 70` and
strictly below the running minimum. -/
noncomputable def identifyLoop (probe : List ℝ) (normFeature : ℝ) :
    List FaceFeature → ℤ → ℝ → ℤ × ℝ
  | [], label, minAngle => (label, minAngle)
  | f :: rest, label, minAngle =>
    let angle := angleOf probe normFeature f
    if angle < 70 ∧ angle < minAngle then identifyLoop probe normFeature rest f.label_id angle
    else identifyLoop probe normFeature rest label minAngle

/-- `face_identify` (vf_inference_identify.c, lines 247-277) restricted to
one probe vector: the resulting `(label_id, confidence)` pair written into
the classification record, with `confidence = (90 - min_angle) / 90`. -/
noncomputable def face_identify (probe : List ℝ) (gallery : List FaceFeature) : ℤ × ℝ :=
  let normFeature := av_norm probe
  let label_min := identifyLoop probe normFeature gallery 0 180
  (label_min.1, (90 - label_min.2) / 90)

/-- The gallery loop preserves and refines the running minimum: the result
either is the untouched start pair (when no entry passes the gate) or the
label/angle of some gallery entry passing it; and the resulting angle is a
lower bound of the start value and of every below-threshold angle. -/
theorem identifyLoop_inv (p : List ℝ) (nf : ℝ) :
    ∀ (g : List FaceFeature) (l0 : ℤ) (m0 : ℝ),
      (((identifyLoop p nf g l0 m0).1 = l0 ∧ (identifyLoop p nf g l0 m0).2 = m0) ∨
        (∃ f ∈ g, (identifyLoop p nf g l0 m0).1 = f.label_id ∧
          (identifyLoop p nf g l0 m0).2 = angleOf p nf f ∧
          angleOf p nf f < 70 ∧ angleOf p nf f < m0)) ∧
      ((identifyLoop p nf g l0 m0).2 ≤ m0 ∧
        ∀ f ∈ g, angleOf p nf f < 70 → (identifyLoop p nf g l0 m0).2 ≤ angleOf p nf f) := by
  intro g
  induction g with
  | nil => exact fun l0 m0 => ⟨Or.inl ⟨rfl, rfl⟩, le_refl _, by simp⟩
  | cons f g ih =>
    intro l0 m0
    simp only [identifyLoop]
    split
    · rename_i hc
      obtain ⟨hcases, hle, hmin⟩ := ih f.label_id (angleOf p nf f)
      refine ⟨?_, le_trans hle (le_of_lt hc.2), ?_⟩
      · rcases hcases with ⟨h1, h2⟩ | ⟨f2, hf2, h1, h2, h3, h4⟩
        · exact Or.inr ⟨f, List.mem_cons_self f g, h1, h2, hc.1, hc.2⟩
        · exact Or.inr ⟨f2, List.mem_cons_of_mem f hf2, h1, h2, h3, lt_trans h4 hc.2⟩
      · intro f2 hf2 h70
        rcases List.mem_cons.mp hf2 with rfl | hf2
        · exact hle
        · exact hmin f2 hf2 h70
    · rename_i hc
      obtain ⟨hcases, hle, hmin⟩ := ih l0 m0
      refine ⟨?_, hle, ?_⟩
      · rcases hcases with ⟨h1, h2⟩ | ⟨f2, hf2, h1, h2, h3, h4⟩
        · exact Or.inl ⟨h1, h2⟩
        · exact Or.inr ⟨f2, List.mem_cons_of_mem f hf2, h1, h2, h3, h4⟩
      · intro f2 hf2 h70
        rcases List.mem_cons.mp hf2 with rfl | hf2
        · have hm0 : m0 ≤ angleOf p nf f2 := by
            by_contra hlt
            exact hc ⟨h70, lt_of_not_le hlt⟩
          exact le_trans hle hm0
        · exact hmin f2 hf2 h70

/-- An angle computed from a non-positive cosine argument is at least 90
degrees (so never below the 70-degree recognition threshold). -/
theorem angleOf_ge_90_of_nonpos (p : List ℝ) (nf : ℝ) (f : FaceFeature)
    (h : (av_dot p f.feature - 1/10000) / (av_norm f.feature * nf) ≤ 0) :
    (90 : ℝ) ≤ angleOf p nf f := by
  have hπ := Real.pi_pos
  have harc : Real.pi / 2 ≤ Real.arccos ((av_dot p f.feature - 1/10000) /
      (av_norm f.feature * nf)) := by
    rw [Real.arccos]
    have := Real.arcsin_nonpos.mpr h
    linarith
  rw [angleOf]
  have h1 : (1:ℝ)/2 ≤ Real.arccos ((av_dot p f.feature - 1/10000) /
      (av_norm f.feature * nf)) / Real.pi := by
    rw [le_div_iff₀ hπ]
    linarith
  linarith

end FFIdentify

namespace FFPreproc

/-- `Rect` (inference base): a float crop rectangle. -/
structure Rect where
  x0 : ℚ
  y0 : ℚ
  x1 : ℚ
  y1 : ℚ
deriving DecidableEq

/-- The integer crop rectangle actually used by `sw_crop_and_scale` after
rounding and clamping. -/
structure CropRect where
  x : ℤ
  y : ℤ
  w : ℤ
  h : ℤ
deriving DecidableEq

/-- `lrintf`: round a float to the nearest integer (ties are irrelevant to
the claims; modelled with `round`). -/
def lrintf (q : ℚ) : ℤ := round q

/-- The crop-rectangle validation and clamping of `sw_crop_and_scale`
(inference base, "cropping" block): origins are rounded and clamped to
`≥ 0`; a clamped origin at or beyond the source edge is `AVERROR(EINVAL)`;
extents are clamped to the source edge; a non-positive clamped width or
height is `AVERROR(EINVAL)`.  Each error return happens before anything is
written to the destination buffer (`av_image_alloc`/`sws_scale` run only
on the success path, which receives the returned rectangle). -/
def sw_crop_and_scale (frameW frameH : ℤ) (crop : Option Rect) : Except ℤ CropRect :=
  match crop with
  | none => .error FFInference.AVERROR_EINVAL
  | some c =>
    let x := max (lrintf c.x0) 0
    let y := max (lrintf c.y0) 0
    if frameW ≤ x ∨ frameH ≤ y then .error FFInference.AVERROR_EINVAL
    else
      let w := min (lrintf c.x1 - x) (frameW - x)
      let h := min (lrintf c.y1 - y) (frameH - y)
      if w ≤ 0 ∨ h ≤ 0 then .error FFInference.AVERROR_EINVAL
      else .ok { x := x, y := y, w := w, h := h }

/-- The pixel formats appearing in this pipeline (`AVPixelFormat`,
restricted to the formats the filters negotiate plus a catch-all). -/
inductive AVPixelFormat
  | GRAY8 | BGRA | BGR0 | BGR24 | RGBP | YUV420P | NV12 | RGB24 | VAAPI | OTHER
deriving DecidableEq

/-- `DNNDataFormat` values assigned by `fill_dnn_data_from_frame`. -/
inductive DNNDataFormat
  | GRAY_PLANAR | BGR_PACKED | RGB_PLANAR
deriving DecidableEq

/-- The input frame fields `fill_dnn_data_from_frame` reads. -/
structure AVFrameModel where
  format : AVPixelFormat
  width : ℤ
  height : ℤ
deriving DecidableEq

/-- `DNNIOData` restricted to the fields `fill_dnn_data_from_frame`
populates (precision is always `DNN_DATA_PRECISION_U8` here, memory type
always `DNN_MEM_HOST`). -/
structure DNNIOData where
  width : ℤ
  height : ℤ
  channels : ℤ
  data_format : DNNDataFormat
  batch_idx : ℤ
  is_image : ℤ
  in_out_idx : ℤ
deriving DecidableEq

/-- `fill_dnn_data_from_frame` (inference base): the pixel-format switch
selects format/channel count; an unsupported format returns
`AVERROR(EINVAL)` before any output field is populated. -/
def fill_dnn_data_from_frame (frame : AVFrameModel) (batch_idx is_image input_idx : ℤ) :
    Except ℤ DNNIOData :=
  let mk : ℤ → DNNDataFormat → DNNIOData := fun channels_nb dnn_fmt =>
    ⟨frame.width, frame.height, channels_nb, dnn_fmt, batch_idx, is_image, input_idx⟩
  match frame.format with
  | .GRAY8 => .ok (mk 1 .GRAY_PLANAR)
  | .BGRA => .ok (mk 4 .BGR_PACKED)
  | .BGR0 => .ok (mk 4 .BGR_PACKED)
  | .BGR24 => .ok (mk 3 .BGR_PACKED)
  | .RGBP => .ok (mk 3 .RGB_PLANAR)
  | _ => .error FFInference.AVERROR_EINVAL

end FFPreproc

namespace FFPool

/-- Modelled from the spec: the request pool of the base inference layer
(`ff_base_inference.c` is not under src/; only its caller `flush_frame` in
vf_ie_detect.c is).  Per spec §4.2, slots accumulate samples (`Filling`)
until dispatched (`Submitted`); the processed-frame queue yields frames in
submission order.  `filling` holds the frames buffered in not-yet-dispatched
slots, `submitted` the dispatched/completed frames still queued for output;
frames are identified by their ordering key. -/
structure InferencePool where
  filling : List ℕ
  submitted : List ℕ
  already_flushed : Bool
deriving DecidableEq

/-- Modelled from the spec: the drain loop of `flush_frame` (vf_ie_detect.c,
lines 159-173) against the spec-modelled pool.  While the frame queue is
non-empty, `av_base_inference_get_frame` pops the next submitted frame (or
nothing when only buffered work remains) and
`av_base_inference_send_event(EOS)` forces the `Filling` slots to dispatch
(spec §4.2: "forces all Filling slots to dispatch regardless of fill
level, then blocks/polls until all Submitted slots complete"). -/
def flushLoop : (submitted : List ℕ) → (filling : List ℕ) → List ℕ
  | [], [] => []
  | [], f :: fs => flushLoop (f :: fs) []
  | s :: ss, fill => s :: flushLoop (ss ++ fill) []
termination_by submitted filling => (submitted.length + filling.length, filling.length)

/-- `flush_frame` (vf_ie_detect.c, lines 151-178): returns immediately when
`already_flushed` is set; otherwise drains the pool through the EOS loop
and sets the flag.  The second component lists the frames handed to
`ff_filter_frame` during the drain, in order. -/
def flush_frame (s : InferencePool) : InferencePool × List ℕ :=
  if s.already_flushed then (s, [])
  else ({ filling := [], submitted := [], already_flushed := true },
    flushLoop s.submitted s.filling)

end FFPool

namespace FFPool

/-- With no buffered (Filling) work, the drain loop yields the submitted
frames in order. -/
theorem flushLoop_nil_fill : ∀ sub : List ℕ, flushLoop sub [] = sub := by
  intro sub
  induction sub with
  | nil => simp [flushLoop]
  | cons s ss ih =>
    rw [flushLoop, List.append_nil, ih]

/-- The drain loop yields every remaining frame: all submitted frames in
order, then the buffered frames dispatched by the EOS event. -/
theorem flushLoop_eq : ∀ sub fill : List ℕ, flushLoop sub fill = sub ++ fill := by
  intro sub fill
  match sub, fill with
  | [], [] => rw [flushLoop]; rfl
  | [], f :: fs =>
    rw [flushLoop, flushLoop_nil_fill, List.nil_append]
  | s :: ss, fill =>
    rw [flushLoop, flushLoop_nil_fill, List.cons_append]

end FFPool

namespace FFInference

theorem clampLow_bounds (b v : ℤ) (hb : 0 ≤ b) (hv : v ≤ b) :
    0 ≤ (if v < 0 then 0 else v) ∧ (if v < 0 then 0 else v) ≤ b := by
  split <;> omega

theorem clampHigh_bounds (b v : ℤ) (hb : 0 ≤ b) (hv : 0 ≤ v) :
    0 ≤ (if v > b then b else v) ∧ (if v > b then b else v) ≤ b := by
  split <;> omega

theorem ctrunc_nonneg {q : ℚ} (h : 0 ≤ q) : 0 ≤ ctrunc q := by
  rw [ctrunc, if_pos h]
  exact Int.floor_nonneg.mpr h

theorem ctrunc_le {q : ℚ} {b : ℤ} (hb : 0 ≤ b) (h : q < (b : ℚ) + 1) : ctrunc q ≤ b := by
  rw [ctrunc]
  split
  · exact Int.lt_add_one_iff.mp (Int.floor_lt.mpr (by push_cast; linarith))
  · have hq : q ≤ (0 : ℚ) := le_of_not_le (by assumption)
    exact le_trans (Int.ceil_le.mpr (by exact_mod_cast hq)) hb

/-- A detection row below the confidence threshold (whose image id is in
range, so that the loop does not break first) contributes nothing. -/
theorem extractLoop_skip (threshold : ℚ) (labels : Option (List String)) (rois : List ROI)
    (r : DetRow) (rest : List DetRow) (boxes : List (List InferDetection))
    (hid : ¬ (ctrunc r.image_id < 0 ∨ (rois.length : ℤ) ≤ ctrunc r.image_id))
    (hconf : r.confidence < threshold) :
    extractLoop threshold labels rois (r :: rest) boxes =
      extractLoop threshold labels rois rest boxes := by
  simp only [extractLoop, if_neg hid, if_pos hconf]

/-- The loop breaks at a row whose image id is out of range: the remaining
rows are never examined. -/
theorem extractLoop_break_at (threshold : ℚ) (labels : Option (List String)) (rois : List ROI)
    (bad : DetRow) (rows2 : List DetRow)
    (hbad : ctrunc bad.image_id < 0 ∨ (rois.length : ℤ) ≤ ctrunc bad.image_id) :
    ∀ (rows1 : List DetRow) (boxes : List (List InferDetection)),
      extractLoop threshold labels rois (rows1 ++ bad :: rows2) boxes =
        extractLoop threshold labels rois rows1 boxes := by
  intro rows1
  induction rows1 with
  | nil => intro boxes; simp only [List.nil_append, extractLoop, if_pos hbad]
  | cons r rs ih =>
    intro boxes
    simp only [List.cons_append, extractLoop]
    split
    · rfl
    · split
      · exact ih boxes
      · exact ih _

/-- Decoding `n` copies of a fixed in-range, above-threshold row appends
`n` decoded boxes to the (single) image's list. -/
theorem extractLoop_replicate_singleton (threshold : ℚ) (labels : Option (List String))
    (roi : ROI) (r : DetRow) (hid : ctrunc r.image_id = 0)
    (hconf : ¬ r.confidence < threshold) :
    ∀ (n : ℕ) (l : List InferDetection),
      extractLoop threshold labels [roi] (List.replicate n r) [l] =
        [l ++ List.replicate n (decodeBBox labels roi r)] := by
  intro n
  induction n with
  | zero => intro l; simp [extractLoop]
  | succ n ih =>
    intro l
    rw [List.replicate_succ]
    simp only [extractLoop, hid]
    rw [if_neg (by simp), if_neg hconf]
    simp only [Int.toNat_zero, List.getD, updateAt, List.get?, Option.getD_some]
    rw [ih (l ++ [decodeBBox labels roi r])]
    simp [List.replicate_succ]

/-- The running maximum of `find_max_element_index` dominates the start
value and every scanned element. -/
theorem findMaxAux_max : ∀ (xs : List ℚ) (i idx : ℕ) (val : ℚ),
    val ≤ (findMaxAux xs i idx val).2 ∧ ∀ x ∈ xs, x ≤ (findMaxAux xs i idx val).2 := by
  intro xs
  induction xs with
  | nil => exact fun i idx val => ⟨le_refl _, by simp⟩
  | cons x xs ih =>
    intro i idx val
    simp only [findMaxAux]
    split
    · refine ⟨le_trans (le_of_lt (by assumption)) (ih (i+1) i x).1, ?_⟩
      intro y hy
      rcases List.mem_cons.mp hy with rfl | hy
      · exact (ih (i+1) i y).1
      · exact (ih (i+1) i x).2 y hy
    · refine ⟨(ih (i+1) idx val).1, ?_⟩
      intro y hy
      rcases List.mem_cons.mp hy with rfl | hy
      · exact le_trans (le_of_not_lt (by assumption)) (ih (i+1) idx val).1
      · exact (ih (i+1) idx val).2 y hy

/-- The result of `find_max_element_index`'s scan is either the start pair
or the position (relative to the counter) and value of a scanned element. -/
theorem findMaxAux_cases : ∀ (xs : List ℚ) (i idx : ℕ) (val : ℚ),
    ((findMaxAux xs i idx val).1 = idx ∧ (findMaxAux xs i idx val).2 = val) ∨
    (∃ j, ∃ hj : j < xs.length, (findMaxAux xs i idx val).1 = i + j ∧
      xs.get ⟨j, hj⟩ = (findMaxAux xs i idx val).2) := by
  intro xs
  induction xs with
  | nil => exact fun i idx val => Or.inl ⟨rfl, rfl⟩
  | cons x xs ih =>
    intro i idx val
    simp only [findMaxAux]
    split
    · rcases ih (i+1) i x with ⟨h1, h2⟩ | ⟨j, hj, h1, h2⟩
      · refine Or.inr ⟨0, by simp, by rw [h1]; omega, ?_⟩
        simpa using h2.symm
      · refine Or.inr ⟨j + 1, by simp; omega, by rw [h1]; omega, ?_⟩
        simpa using h2
    · rcases ih (i+1) idx val with ⟨h1, h2⟩ | ⟨j, hj, h1, h2⟩
      · exact Or.inl ⟨h1, h2⟩
      · refine Or.inr ⟨j + 1, by simp; omega, by rw [h1]; omega, ?_⟩
        simpa using h2

/-- C's `if (conf < x) conf = x` update is the binary max. -/
theorem if_lt_eq_max (a b : ℚ) : (if a < b then b else a) = max a b := by
  rcases lt_or_le a b with h | h
  · rw [if_pos h, max_eq_right h.le]
  · rw [if_neg (not_lt.mpr h), max_eq_left h]

/-- Closed form of the `compound` loop: the composed string is the
concatenation, in order, of the labels whose element meets the threshold;
the confidence is the running maximum of the scanned elements. -/
theorem compoundLoop_spec (th : ℚ) : ∀ (ps : List (ℚ × String)) (attrs : String) (conf : ℚ),
    compoundLoop th ps attrs conf =
      (attrs ++ ((ps.filter fun p => th ≤ p.1).map Prod.snd).foldr (· ++ ·) "",
       (ps.map Prod.fst).foldl max conf) := by
  intro ps
  induction ps with
  | nil => intro attrs conf; simp [compoundLoop]
  | cons p ps ih =>
    intro attrs conf
    simp only [compoundLoop, ih, List.filter_cons, List.map_cons, List.foldl_cons, if_lt_eq_max]
    by_cases hth : th ≤ p.1
    · simp [hth, String.append_assoc]
    · simp [hth]

/-- Membership in an `updateAt`-modified list: the element was already
there, or is the image of an element that was. -/
theorem mem_updateAt {α : Type} (f : α → α) :
    ∀ (l : List α) (n : ℕ) (x : α), x ∈ updateAt n f l → x ∈ l ∨ ∃ y ∈ l, x = f y := by
  intro l
  induction l with
  | nil => intro n x hx; simp [updateAt] at hx
  | cons a l ih =>
    intro n x hx
    match n with
    | 0 =>
      rcases List.mem_cons.mp hx with rfl | hx
      · exact Or.inr ⟨a, List.mem_cons_self a l, rfl⟩
      · exact Or.inl (List.mem_cons_of_mem a hx)
    | Nat.succ m =>
      rcases List.mem_cons.mp hx with rfl | hx
      · exact Or.inl (List.mem_cons_self x l)
      · rcases ih m x hx with hx | ⟨y, hy, rfl⟩
        · exact Or.inl (List.mem_cons_of_mem a hx)
        · exact Or.inr ⟨y, List.mem_cons_of_mem a hy, rfl⟩

/-- Every record the row loop ever accumulates is either already in the
accumulator or is `decodeBBox` of one of the rows. -/
theorem extractLoop_mem_inv (threshold : ℚ) (labels : Option (List String)) (rois : List ROI)
    (P : InferDetection → Prop) :
    ∀ (rows : List DetRow) (boxes : List (List InferDetection)),
      (∀ bs ∈ boxes, ∀ rec ∈ bs, P rec) →
      (∀ r ∈ rows, ∀ roi, P (decodeBBox labels roi r)) →
      ∀ bs ∈ extractLoop threshold labels rois rows boxes, ∀ rec ∈ bs, P rec := by
  intro rows
  induction rows with
  | nil => intro boxes hboxes _; simpa [extractLoop] using hboxes
  | cons r rest ih =>
    intro boxes hboxes hrows
    simp only [extractLoop]
    split
    · exact hboxes
    · split
      · exact ih boxes hboxes fun q hq => hrows q (List.mem_cons_of_mem r hq)
      · refine ih _ ?_ (fun q hq => hrows q (List.mem_cons_of_mem r hq))
        intro bs hbs rec hrec
        rcases mem_updateAt _ _ _ _ hbs with hbs | ⟨y, hy, rfl⟩
        · exact hboxes bs hbs rec hrec
        · rcases List.mem_append.mp hrec with hrec | hrec
          · exact hboxes y hy rec hrec
          · rcases List.mem_singleton.mp hrec with rfl
            exact hrows r (List.mem_cons_self r rest) _

end FFInference

namespace Claims

open FFInference FFIdentify FFPreproc FFPool

/-- The 640×480 ROI of the spec's worked detection example. -/
def exampleROI : ROI := ⟨640, 480⟩

/-- The spec's example detection row `{0, 3, 0.92, 0.1, 0.2, 0.6, 0.8}`. -/
def exampleRow : DetRow := ⟨0, 3, 92/100, 1/10, 2/10, 6/10, 8/10⟩

/-- C1: a detection row decoded against an ROI of width `W`/height `H` has
its normalized `[0,1]` coordinates converted to integer pixel coordinates
against the ROI's width/height and clamped into `[0,W]`/`[0,H]`; a row
below the threshold (with in-range image id) produces no record; and the
row `{0, 3, 0.92, 0.1, 0.2, 0.6, 0.8}` at threshold `0.5` against a
640×480 ROI yields exactly one record with label id 3, confidence 0.92 and
pixel box (64,96)-(384,384). -/
theorem C1_detection_row_decode
    (threshold : ℚ) (labels : Option (List String)) (roi : ROI) (r : DetRow)
    (hx0 : 0 ≤ r.x_min) (hx1 : r.x_min ≤ 1) (hy0 : 0 ≤ r.y_min) (hy1 : r.y_min ≤ 1)
    (hX0 : 0 ≤ r.x_max) (hX1 : r.x_max ≤ 1) (hY0 : 0 ≤ r.y_max) (hY1 : r.y_max ≤ 1)
    (hw : 0 ≤ roi.w) (hh : 0 ≤ roi.h) :
    (0 ≤ (decodeBBox labels roi r).x_min ∧ (decodeBBox labels roi r).x_min ≤ roi.w ∧
     0 ≤ (decodeBBox labels roi r).x_max ∧ (decodeBBox labels roi r).x_max ≤ roi.w ∧
     0 ≤ (decodeBBox labels roi r).y_min ∧ (decodeBBox labels roi r).y_min ≤ roi.h ∧
     0 ≤ (decodeBBox labels roi r).y_max ∧ (decodeBBox labels roi r).y_max ≤ roi.h) ∧
    (∀ (rois : List ROI) (rest : List DetRow) (boxes : List (List InferDetection)),
      ¬ (ctrunc r.image_id < 0 ∨ (rois.length : ℤ) ≤ ctrunc r.image_id) →
      r.confidence < threshold →
      extractLoop threshold labels rois (r :: rest) boxes =
        extractLoop threshold labels rois rest boxes) ∧
    ExtractBoundingBoxes (1/2) (some ["bg"]) [exampleROI] [exampleRow] =
      [[⟨64, 96, 384, 384, 92/100, 3, some ["bg"]⟩]] := by
  refine ⟨?_, fun rois rest boxes hid hconf => extractLoop_skip _ _ _ _ _ _ hid hconf, ?_⟩
  · have hwq : (0 : ℚ) ≤ (roi.w : ℚ) := by exact_mod_cast hw
    have hhq : (0 : ℚ) ≤ (roi.h : ℚ) := by exact_mod_cast hh
    have hxm : ctrunc (r.x_min * (roi.w : ℚ) + 1/2) ≤ roi.w :=
      ctrunc_le hw (by nlinarith [mul_le_of_le_one_left hwq hx1])
    have hym : ctrunc (r.y_min * (roi.h : ℚ) + 1/2) ≤ roi.h :=
      ctrunc_le hh (by nlinarith [mul_le_of_le_one_left hhq hy1])
    have hxM : 0 ≤ ctrunc (r.x_max * (roi.w : ℚ) + 1/2) := ctrunc_nonneg (by positivity)
    have hyM : 0 ≤ ctrunc (r.y_max * (roi.h : ℚ) + 1/2) := ctrunc_nonneg (by positivity)
    simp only [decodeBBox]
    exact ⟨(clampLow_bounds _ _ hw hxm).1, (clampLow_bounds _ _ hw hxm).2,
      (clampHigh_bounds _ _ hw hxM).1, (clampHigh_bounds _ _ hw hxM).2,
      (clampLow_bounds _ _ hh hym).1, (clampLow_bounds _ _ hh hym).2,
      (clampHigh_bounds _ _ hh hyM).1, (clampHigh_bounds _ _ hh hyM).2⟩
  · simp only [ExtractBoundingBoxes, extractLoop, decodeBBox, ctrunc, updateAt,
      exampleROI, exampleRow, List.replicate, List.getD, List.length]
    norm_num

/-- C1 witness: the theorem applied to the spec's example row, ROI and
threshold. -/
theorem C1_detection_row_decode_witness :
    ExtractBoundingBoxes (1/2) (some ["bg"]) [exampleROI] [exampleRow] =
      [[⟨64, 96, 384, 384, 92/100, 3, some ["bg"]⟩]] :=
  (C1_detection_row_decode (1/2) (some ["bg"]) exampleROI exampleRow
    (by norm_num [exampleRow]) (by norm_num [exampleRow]) (by norm_num [exampleRow])
    (by norm_num [exampleRow]) (by norm_num [exampleRow]) (by norm_num [exampleRow])
    (by norm_num [exampleRow]) (by norm_num [exampleRow])
    (by norm_num [exampleROI]) (by norm_num [exampleROI])).2.2

/-- C2: decoding processes rows in tensor order and stops at the first row
whose image index is outside `[0, batch_size)`: that row and all rows after
it are ignored. -/
theorem C2_stop_at_out_of_range_index
    (threshold : ℚ) (labels : Option (List String)) (rois : List ROI)
    (bad : DetRow) (rows1 rows2 : List DetRow)
    (hbad : ctrunc bad.image_id < 0 ∨ (rois.length : ℤ) ≤ ctrunc bad.image_id) :
    ExtractBoundingBoxes threshold labels rois (rows1 ++ bad :: rows2) =
      ExtractBoundingBoxes threshold labels rois rows1 := by
  rw [ExtractBoundingBoxes, ExtractBoundingBoxes, extractLoop_break_at _ _ _ _ _ hbad]

/-- C2 witness: a row with image index 5 against a single-ROI batch stops
decoding; a following above-threshold row is ignored. -/
theorem C2_stop_at_out_of_range_index_witness :
    ExtractBoundingBoxes (1/2) none [exampleROI]
        [exampleRow, ⟨5, 1, 9/10, 0, 0, 1, 1⟩, exampleRow] =
      ExtractBoundingBoxes (1/2) none [exampleROI] [exampleRow] := by
  have h := C2_stop_at_out_of_range_index (1/2) none [exampleROI]
    ⟨5, 1, 9/10, 0, 0, 1, 1⟩ [exampleRow] [exampleRow]
    (by right; norm_num [ctrunc])
  simpa using h

/-- C4 counterexample: no global `max_count` cap exists in the decoder —
for every candidate cap there is a tensor whose frame-0 record list is
longer. -/
theorem C4_counterexample :
    ¬ ∃ cap : ℕ, ∀ rows : List DetRow,
        ((ExtractBoundingBoxes (1/2) none [exampleROI] rows).getD 0 []).length ≤ cap := by
  rintro ⟨cap, h⟩
  have hrep := extractLoop_replicate_singleton (1/2) none exampleROI exampleRow
    (by norm_num [ctrunc, exampleRow]) (by norm_num [exampleRow]) (cap + 1) []
  have hlen := h (List.replicate (cap + 1) exampleRow)
  rw [ExtractBoundingBoxes, List.length_singleton, List.replicate_one, hrep] at hlen
  simp only [List.nil_append, List.getD, List.get?, Option.getD_some,
    List.length_replicate] at hlen
  omega

/-- C4 amended: decoding keeps every row that passes the image-index and
confidence checks — `n` qualifying rows yield `n` records for their frame,
for every `n`; nothing bounds the per-frame record count. -/
theorem C4_no_per_frame_cap (n : ℕ) :
    ((ExtractBoundingBoxes (1/2) none [exampleROI]
        (List.replicate n exampleRow)).getD 0 []).length = n := by
  rw [ExtractBoundingBoxes]
  have hrep := extractLoop_replicate_singleton (1/2) none exampleROI exampleRow
    (by norm_num [ctrunc, exampleRow]) (by norm_num [exampleRow]) n []
  simp only [List.length_cons, List.length_nil, List.replicate, hrep]
  simp

/-- C4 witness: three qualifying rows yield three records. -/
theorem C4_no_per_frame_cap_witness :
    ((ExtractBoundingBoxes (1/2) none [exampleROI]
        (List.replicate 3 exampleRow)).getD 0 []).length = 3 :=
  C4_no_per_frame_cap 3

/-- The converter rule of the spec's `max` example: 3-entry label table
`["red","green","blue"]`. -/
def colorRule : OutputPostproc := ⟨"color", "max", 0, ["red", "green", "blue"]⟩

/-- C5: a `max` converter rule emits exactly one record whose label id is
the arg-max index of the output vector, whose confidence is the maximum
element, bound to the rule's label table; vector `[0.1, 0.7, 0.2]` with
table `["red","green","blue"]` yields label id 1 with confidence 0.7. -/
theorem C5_max_converter (post : OutputPostproc) (metaIndex : ℤ) (v : List ℚ) (hv : v ≠ []) :
    ((attributesToTextMax metaIndex post v).label_buf = some post.labels ∧
     (attributesToTextMax metaIndex post v).name = post.attribute_name ∧
     (attributesToTextMax metaIndex post v).detect_id = metaIndex) ∧
    (∀ x ∈ v, x ≤ (attributesToTextMax metaIndex post v).confidence) ∧
    ((attributesToTextMax metaIndex post v).label_id.toNat < v.length ∧
      v.getD (attributesToTextMax metaIndex post v).label_id.toNat 0 =
        (attributesToTextMax metaIndex post v).confidence) ∧
    attributesToTextMax 0 colorRule [1/10, 7/10, 2/10] =
      { emptyClassification with
          detect_id := 0
          name := "color"
          label_id := 1
          confidence := 7/10
          label_buf := some ["red", "green", "blue"] } := by
  obtain ⟨a, t, rfl⟩ : ∃ a t, v = a :: t := ⟨v.head hv, v.tail, (List.head_cons_tail v hv).symm⟩
  refine ⟨⟨rfl, rfl, rfl⟩, ?_, ?_, ?_⟩
  · intro x hx
    simp only [attributesToTextMax, find_max_element_index, List.tail_cons, List.headD_cons]
    rcases List.mem_cons.mp hx with rfl | hx
    · exact (findMaxAux_max t 1 0 x).1
    · exact (findMaxAux_max t 1 0 a).2 x hx
  · simp only [attributesToTextMax, find_max_element_index, List.tail_cons, List.headD_cons,
      Int.toNat_natCast]
    rcases findMaxAux_cases t 1 0 a with ⟨h1, h2⟩ | ⟨j, hj, h1, h2⟩
    · rw [h1]
      exact ⟨by simp, by simpa using h2.symm⟩
    · rw [h1]
      refine ⟨by simp only [List.length_cons]; omega, ?_⟩
      have h1j : 1 + j = j + 1 := by omega
      rw [h1j, List.getD_cons_succ, List.getD_eq_get _ _ hj]
      exact h2
  · simp only [attributesToTextMax, find_max_element_index, colorRule, List.tail_cons,
      List.headD_cons, findMaxAux, emptyClassification]
    norm_num

/-- C5 witness: the theorem applied to the spec's example vector and rule. -/
theorem C5_max_converter_witness :
    attributesToTextMax 0 colorRule [1/10, 7/10, 2/10] =
      { emptyClassification with
          detect_id := 0
          name := "color"
          label_id := 1
          confidence := 7/10
          label_buf := some ["red", "green", "blue"] } :=
  (C5_max_converter colorRule 0 [1/10, 7/10, 2/10] (by simp)).2.2.2

/-- A concrete `compound` rule: threshold 0.5, two labels. -/
def compoundRule : OutputPostproc := ⟨"attrs", "compound", 1/2, ["a", "b"]⟩

/-- C6 counterexample: two output vectors whose composed attribute strings
differ ("ab" vs "a") produce identical records — the emitted record cannot
carry the composed string (it is only logged). -/
theorem C6_counterexample :
    (attributesToTextCompound compoundRule [9/10, 8/10]).1 =
      (attributesToTextCompound compoundRule [9/10, 2/10]).1 ∧
    (attributesToTextCompound compoundRule [9/10, 8/10]).2 ≠
      (attributesToTextCompound compoundRule [9/10, 2/10]).2 := by
  constructor
  · simp only [attributesToTextCompound, compoundRule, List.zip, List.zipWith, compoundLoop]
    norm_num
  · simp only [attributesToTextCompound, compoundRule, List.zip, List.zipWith, compoundLoop]
    norm_num
    decide

/-- C6 amended: for every vector element meeting the rule's threshold
(0.5 when the rule's threshold is 0), its label string is concatenated, in
order, into a composed attribute string that is only written to the debug
log; the emitted record carries the attribute name and a confidence equal
to the running maximum of the scanned elements (starting from 0), and no
other field. -/
theorem C6_compound_string_only_logged (post : OutputPostproc) (v : List ℚ) :
    (attributesToTextCompound post v).2 =
      (((List.zip v post.labels).filter
          fun p => (if post.threshold = 0 then 1/2 else post.threshold) ≤ p.1).map
        Prod.snd).foldr (· ++ ·) "" ∧
    (attributesToTextCompound post v).1 =
      { emptyClassification with
          name := post.attribute_name
          confidence := ((List.zip v post.labels).map Prod.fst).foldl max 0 } := by
  constructor
  · simp [attributesToTextCompound, compoundLoop_spec]
  · simp [attributesToTextCompound, compoundLoop_spec]

/-- C6 witness: the amended characterization applied to a concrete vector. -/
theorem C6_compound_string_only_logged_witness :
    (attributesToTextCompound compoundRule [9/10, 8/10]).1.name = "attrs" := by
  rw [(C6_compound_string_only_logged compoundRule [9/10, 8/10]).2]
  rfl

/-- The detection row of the C8 counterexample: tensor label id 99 with a
high confidence. -/
def row99 : DetRow := ⟨0, 99, 9/10, 1/10, 2/10, 6/10, 8/10⟩

/-- C8 counterexample: detection decoding attaches the (2-entry) label
table to a record whose label id, taken verbatim from the tensor, is 99 —
not a valid index into the table. -/
theorem C8_counterexample :
    ∃ rec ∈ (ExtractBoundingBoxes (1/2) (some ["person", "car"]) [exampleROI] [row99]).getD 0 [],
      rec.label_buf = some ["person", "car"] ∧
      ¬ rec.label_id < ((["person", "car"] : List String).length : ℤ) := by
  have : ExtractBoundingBoxes (1/2) (some ["person", "car"]) [exampleROI] [row99] =
      [[⟨64, 96, 384, 384, 9/10, 99, some ["person", "car"]⟩]] := by
    simp only [ExtractBoundingBoxes, extractLoop, decodeBBox, ctrunc, updateAt,
      exampleROI, row99, List.replicate, List.getD, List.length]
    norm_num
  rw [this]
  exact ⟨⟨64, 96, 384, 384, 9/10, 99, some ["person", "car"]⟩, by simp, rfl, by norm_num⟩

/-- C8 amended: the label-validity invariant holds conditionally — a
detection record's label id is a valid index into its attached table
whenever every decoded row's tensor label id is within that table's range
(detection attaches the table without validating the id, as the
counterexample shows); a `max`-converter record's label id is always a
valid index whenever the output vector is no longer than the rule's label
table. -/
theorem C8_label_validity (threshold : ℚ) (labels : Option (List String)) (rois : List ROI)
    (rows : List DetRow)
    (hrows : ∀ r ∈ rows, ∀ tbl, labels = some tbl →
      0 ≤ ctrunc r.label_id ∧ ctrunc r.label_id < (tbl.length : ℤ)) :
    (∀ bs ∈ ExtractBoundingBoxes threshold labels rois rows, ∀ rec ∈ bs,
      ∀ tbl, rec.label_buf = some tbl →
        0 ≤ rec.label_id ∧ rec.label_id < (tbl.length : ℤ)) ∧
    (∀ (post : OutputPostproc) (metaIndex : ℤ) (v : List ℚ), v ≠ [] →
      v.length ≤ post.labels.length →
      0 ≤ (attributesToTextMax metaIndex post v).label_id ∧
      (attributesToTextMax metaIndex post v).label_id < (post.labels.length : ℤ)) := by
  constructor
  · refine extractLoop_mem_inv threshold labels rois
      (fun rec => ∀ tbl, rec.label_buf = some tbl →
        0 ≤ rec.label_id ∧ rec.label_id < (tbl.length : ℤ)) rows _ (by simp) ?_
    intro r hr roi tbl htbl
    have := hrows r hr tbl (by simpa [decodeBBox] using htbl)
    simpa [decodeBBox] using this
  · intro post metaIndex v hv hlen
    obtain ⟨a, t, rfl⟩ : ∃ a t, v = a :: t := ⟨v.head hv, v.tail, (List.head_cons_tail v hv).symm⟩
    simp only [attributesToTextMax, find_max_element_index, List.tail_cons, List.headD_cons]
    refine ⟨by positivity, ?_⟩
    have hidx : (findMaxAux t 1 0 a).1 < (a :: t).length := by
      rcases findMaxAux_cases t 1 0 a with ⟨h1, _⟩ | ⟨j, hj, h1, _⟩
      · rw [h1]; simp
      · rw [h1]; simp only [List.length_cons]; omega
    have := lt_of_lt_of_le hidx hlen
    exact_mod_cast this

/-- The in-range detection row of the C8 witness: tensor label id 1
against a two-entry table. -/
def rowInRange : DetRow := ⟨0, 1, 9/10, 1/10, 2/10, 6/10, 8/10⟩

/-- The record `rowInRange` decodes to. -/
def recInRange : InferDetection := ⟨64, 96, 384, 384, 9/10, 1, some ["person", "car"]⟩

/-- C8 witness: the amended invariant applied to a concrete in-range
tensor row — the decoded record's label id 1 is a valid index into the
attached two-entry table. -/
theorem C8_label_validity_witness :
    0 ≤ recInRange.label_id ∧ recInRange.label_id < ((["person", "car"] : List String).length : ℤ) := by
  have hdec : ExtractBoundingBoxes (1/2) (some ["person", "car"]) [exampleROI] [rowInRange] =
      [[recInRange]] := by
    simp only [ExtractBoundingBoxes, extractLoop, decodeBBox, ctrunc, updateAt,
      exampleROI, rowInRange, recInRange, List.replicate, List.getD, List.length]
    norm_num
  have h := (C8_label_validity (1/2) (some ["person", "car"]) [exampleROI] [rowInRange]
    (by intro r hr tbl htbl; rcases List.mem_singleton.mp hr with rfl;
        rcases Option.some_injective _ htbl; norm_num [ctrunc, rowInRange])).1
  exact h [recInRange] (by rw [hdec]; simp) recInRange (by simp) ["person", "car"] rfl

/-- A probe orthogonal to a unit reference vector never passes the
70-degree gate: the angle is `arccos(-0.0001)` in degrees, at least 90. -/
theorem orth_probe_no_match :
    ¬ angleOf [1, 0] (av_norm [1, 0]) ⟨7, [0, 1]⟩ < 70 := by
  have hdot : av_dot [1, 0] ([0, 1] : List ℝ) = 0 := by
    simp [av_dot]
  have hn1 : av_norm ([0, 1] : List ℝ) = 1 := by
    simp [av_norm]
  have hn2 : av_norm ([1, 0] : List ℝ) = 1 := by
    simp [av_norm]
  have h90 := angleOf_ge_90_of_nonpos [1, 0] (av_norm [1, 0]) ⟨7, [0, 1]⟩ ?_
  · linarith
  · show (av_dot [1, 0] [0, 1] - 1/10000) / (av_norm [0, 1] * av_norm [1, 0]) ≤ 0
    rw [hdot, hn1, hn2]
    norm_num

/-- C3 counterexample: a probe vector orthogonal to the single (unit)
gallery vector yields label id 0 and confidence `(90 - 180)/90 = -1.0`,
not confidence 0.0 as claimed — `min_angle` is never updated when no angle
passes the 70-degree gate, so it stays at its 180 start value. -/
theorem C3_counterexample :
    face_identify [1, 0] [⟨7, [0, 1]⟩] = (0, -1) ∧ ((-1 : ℝ) ≠ 0) := by
  refine ⟨?_, by norm_num⟩
  simp only [face_identify, identifyLoop]
  rw [if_neg fun hc => orth_probe_no_match hc.1]
  simp only [identifyLoop]
  norm_num

/-- C3 amended: identity matching computes for every gallery entry the
angle `arccos((dot(probe,ref) - 0.0001) / (norm(ref) * norm(probe)))` in
degrees; if no angle is below the 70-degree recognition threshold the
result is unmatched — label id 0 with confidence `(90 - 180)/90 = -1.0`
(not 0.0); otherwise the result carries the label id of a gallery entry
attaining the minimal below-threshold angle, with confidence
`(90 - min_angle)/90`. -/
theorem C3_identity_match (probe : List ℝ) (gallery : List FaceFeature) :
    ((∀ f ∈ gallery, ¬ angleOf probe (av_norm probe) f < 70) →
      face_identify probe gallery = (0, -1)) ∧
    (∀ f0 ∈ gallery, angleOf probe (av_norm probe) f0 < 70 →
      ∃ g ∈ gallery, angleOf probe (av_norm probe) g < 70 ∧
        (face_identify probe gallery).1 = g.label_id ∧
        (face_identify probe gallery).2 = (90 - angleOf probe (av_norm probe) g) / 90 ∧
        ∀ g2 ∈ gallery, angleOf probe (av_norm probe) g2 < 70 →
          angleOf probe (av_norm probe) g ≤ angleOf probe (av_norm probe) g2) := by
  obtain ⟨hcases, hle, hmin⟩ := identifyLoop_inv probe (av_norm probe) gallery 0 180
  constructor
  · intro hno
    rcases hcases with ⟨h1, h2⟩ | ⟨f, hf, _, _, h3, _⟩
    · simp only [face_identify, h1, h2]
      norm_num
    · exact absurd h3 (hno f hf)
  · intro f0 hf0 h70
    rcases hcases with ⟨_, h2⟩ | ⟨g, hg, h1, h2, h3, _⟩
    · exfalso
      have := hmin f0 hf0 h70
      rw [h2] at this
      linarith
    · refine ⟨g, hg, h3, ?_, ?_, ?_⟩
      · simpa [face_identify] using h1
      · simp only [face_identify]
        rw [h2]
      · intro g2 hg2 h702
        have := hmin g2 hg2 h702
        rw [h2] at this
        exact this

/-- C3 witness: the amended theorem applied to the orthogonal probe, with
the no-match hypothesis discharged. -/
theorem C3_identity_match_witness :
    face_identify [1, 0] [⟨7, [0, 1]⟩] = (0, -1) :=
  (C3_identity_match [1, 0] [⟨7, [0, 1]⟩]).1
    (by intro f hf; rcases List.mem_singleton.mp hf with rfl; exact orth_probe_no_match)

/-- C7: the software crop-and-scale preprocessor clamps negative crop
origins to 0 and extents past the source to the source edge; it fails with
`AVERROR(EINVAL)` exactly when the clamped origin lies at or beyond the
source bounds or the clamped width/height is not positive (each error
return happens before anything is written to the destination); a
successful clamped rectangle lies inside the source. -/
theorem C7_crop_clamp_and_errors (W H : ℤ) (c : Rect) :
    (sw_crop_and_scale W H (some c) = .error FFInference.AVERROR_EINVAL ↔
      (W ≤ max (lrintf c.x0) 0 ∨ H ≤ max (lrintf c.y0) 0) ∨
      (min (lrintf c.x1 - max (lrintf c.x0) 0) (W - max (lrintf c.x0) 0) ≤ 0 ∨
       min (lrintf c.y1 - max (lrintf c.y0) 0) (H - max (lrintf c.y0) 0) ≤ 0)) ∧
    (∀ r, sw_crop_and_scale W H (some c) = .ok r →
      r.x = max (lrintf c.x0) 0 ∧ r.y = max (lrintf c.y0) 0 ∧
      0 ≤ r.x ∧ r.x < W ∧ 0 ≤ r.y ∧ r.y < H ∧
      0 < r.w ∧ 0 < r.h ∧ r.x + r.w ≤ W ∧ r.y + r.h ≤ H) := by
  simp only [sw_crop_and_scale]
  split_ifs with h1 h2
  · exact ⟨iff_of_true rfl (Or.inl h1), fun r hr => by cases hr⟩
  · exact ⟨iff_of_true rfl (Or.inr h2), fun r hr => by cases hr⟩
  · refine ⟨iff_of_false (by simp) ?_, ?_⟩
    · rintro (ha | hb)
      · exact h1 ha
      · exact h2 hb
    · intro r hr
      have hre := (Except.ok.inj hr).symm
      subst hre
      push_neg at h1 h2
      refine ⟨rfl, rfl, ?_, ?_, ?_, ?_, ?_, ?_, ?_, ?_⟩ <;> simp only [] <;> omega

/-- C7 witness: the crop rectangle `(-10,-10)-(700,500)` against a 640×480
source clamps to `(0,0)` with size 640×480 and succeeds within bounds. -/
theorem C7_crop_clamp_and_errors_witness :
    0 ≤ (⟨0, 0, 640, 480⟩ : CropRect).x ∧
    (⟨0, 0, 640, 480⟩ : CropRect).x + (⟨0, 0, 640, 480⟩ : CropRect).w ≤ 640 := by
  have h := (C7_crop_clamp_and_errors 640 480 ⟨-10, -10, 700, 500⟩).2 ⟨0, 0, 640, 480⟩
    (by simp only [sw_crop_and_scale, lrintf]; norm_num [round_eq])
  exact ⟨h.2.2.1, h.2.2.2.2.2.2.2.2.1⟩

/-- C9: `flush_frame` is idempotent — flushing again after any flush is a
no-op that returns immediately with no frames (the `already_flushed` flag
short-circuits it); and a first flush on a pool with buffered work forces
the Filling slots to dispatch and drains every remaining frame (all
submitted frames in order, then the dispatched buffered ones), leaving the
pool empty. -/
theorem C9_flush_idempotent_and_drains (s : InferencePool) :
    (flush_frame (flush_frame s).1 = ((flush_frame s).1, [])) ∧
    (s.already_flushed = false →
      (flush_frame s).2 = s.submitted ++ s.filling ∧
      (flush_frame s).1.submitted = [] ∧ (flush_frame s).1.filling = [] ∧
      (flush_frame s).1.already_flushed = true) := by
  cases hfs : s.already_flushed
  · constructor
    · simp [flush_frame, hfs]
    · intro _
      simp [flush_frame, hfs, flushLoop_eq]
  · refine ⟨by simp [flush_frame, hfs], fun h => by simp at h⟩

/-- C9 witness: a pool with one submitted and one buffered frame drains
both in order; the second flush is a no-op. -/
theorem C9_flush_idempotent_and_drains_witness :
    (flush_frame ⟨[2], [1], false⟩).2 = [1, 2] ∧
    flush_frame (flush_frame ⟨[2], [1], false⟩).1 = ((flush_frame ⟨[2], [1], false⟩).1, []) := by
  have h := C9_flush_idempotent_and_drains ⟨[2], [1], false⟩
  exact ⟨by simpa using (h.2 rfl).1, h.1⟩

/-- C10: the frame-to-backend submission path accepts exactly the pixel
formats GRAY8, BGRA, BGR0, BGR24 and RGBP; any other format makes
`fill_dnn_data_from_frame` fail with `AVERROR(EINVAL)` before populating
any input field, so the frame is not submitted. -/
theorem C10_supported_pixel_formats (frame : AVFrameModel) (b i idx : ℤ) :
    ((∃ d, fill_dnn_data_from_frame frame b i idx = .ok d) ↔
      (frame.format = .GRAY8 ∨ frame.format = .BGRA ∨ frame.format = .BGR0 ∨
       frame.format = .BGR24 ∨ frame.format = .RGBP)) ∧
    (¬ (frame.format = .GRAY8 ∨ frame.format = .BGRA ∨ frame.format = .BGR0 ∨
        frame.format = .BGR24 ∨ frame.format = .RGBP) →
      fill_dnn_data_from_frame frame b i idx = .error FFInference.AVERROR_EINVAL) := by
  obtain ⟨fmt, w, h⟩ := frame
  cases fmt <;> simp [fill_dnn_data_from_frame]

/-- C10 witness: a YUV420P frame is rejected with `AVERROR(EINVAL)`. -/
theorem C10_supported_pixel_formats_witness :
    fill_dnn_data_from_frame ⟨.YUV420P, 640, 480⟩ 0 1 0 =
      .error FFInference.AVERROR_EINVAL :=
  (C10_supported_pixel_formats ⟨.YUV420P, 640, 480⟩ 0 1 0).2 (by simp)

end Claims
